import Mathlib

/-!
Shallow embedding of the 2D BSP-tree core of `src/BSPTreeVisualization.tsx`
(classes `BSPNode` and `BSPTree`), with JavaScript numbers idealized as real
numbers and `BSPNode | null` references represented by the inductive
`NodeRef`.  The recursive `_insertHelper` of the source re-runs itself on the
same node in the `SPANNING` case, so its embedding `insertHelper` takes an
explicit recursion-depth budget (`fuel`) and returns `none` when the budget
runs out; sufficiency of a concrete budget is proved as a theorem.
-/

namespace BSPV

noncomputable section

open Classical

/-- 2D coordinate, the `Point` interface of the source. -/
structure Point where
  x : ℝ
  y : ℝ

/-- The `Polygon` interface of the source: identifier, vertex list in edge
order, and an opaque display attribute carried through splits. -/
structure Polygon where
  id : ℤ
  points : List Point
  color : String

/-- The `Partition` interface of the source: a point on the splitting plane
plus a normal vector. -/
structure Partition where
  point : Point
  normal : Point

/-- The four classification results returned (as strings) by
`classifyPolygon` in the source. -/
inductive Classification where
  | FRONT
  | BACK
  | COPLANAR
  | SPANNING
deriving DecidableEq

/-- A `BSPNode | null` reference: `null` is the JavaScript `null`, and
`node` carries the fields `partition`, `front`, `back`, `polygons` of the
`BSPNode` class. -/
inductive NodeRef where
  | null : NodeRef
  | node (partition : Partition) (front : NodeRef) (back : NodeRef)
      (polygons : List Polygon) : NodeRef

/-- Indexing `points[i]` of the source.  All uses in the source are in
range for the inputs considered here; the default is never observed in any
theorem below. -/
def pointAt (l : List Point) (i : ℕ) : Point :=
  l.getD i ⟨0, 0⟩

/-- The epsilon tolerance `EPSILON = 0.1` of `classifyPolygon`. -/
def EPSILON : ℝ := 0.1

/-- `pointToPlaneDistance(point, partition)` of the source: the dot product
of `point - partition.point` with `partition.normal`. -/
def pointToPlaneDistance (point : Point) (partition : Partition) : ℝ :=
  (point.x - partition.point.x) * partition.normal.x +
    (point.y - partition.point.y) * partition.normal.y

/-- `createPartition(polygon)` of the source: plane through the polygon's
first vertex whose normal is the left perpendicular of the leading edge,
divided by its Euclidean length.  In the source a zero-length leading edge
makes this a division `0 / 0` producing `NaN` silently; in this exact model
the Lean convention `0 / 0 = 0` likewise produces a degenerate normal
silently, and no error is raised in either case. -/
def createPartition (polygon : Polygon) : Partition :=
  let p1 := pointAt polygon.points 0
  let p2 := pointAt polygon.points 1
  let dx := p2.x - p1.x
  let dy := p2.y - p1.y
  let nx := -dy
  let ny := dx
  let len := Real.sqrt (nx * nx + ny * ny)
  { point := p1, normal := { x := nx / len, y := ny / len } }

/-- The counting loop of `classifyPolygon`: for each vertex, increment the
front counter when its signed distance exceeds `EPSILON`, else increment the
back counter when it is below `-EPSILON`.  Returns
`(frontCount, backCount)`. -/
def counts (points : List Point) (partition : Partition) : ℕ × ℕ :=
  match points with
  | [] => (0, 0)
  | p :: rest =>
    let tail := counts rest partition
    let dist := pointToPlaneDistance p partition
    if dist > EPSILON then (tail.1 + 1, tail.2)
    else if dist < -EPSILON then (tail.1, tail.2 + 1)
    else tail

/-- `classifyPolygon(polygon, partition)` of the source: the four-way
decision on `(frontCount, backCount)`. -/
def classifyPolygon (polygon : Polygon) (partition : Partition) :
    Classification :=
  let frontCount := (counts polygon.points partition).1
  let backCount := (counts polygon.points partition).2
  if frontCount > 0 ∧ backCount = 0 then .FRONT
  else if backCount > 0 ∧ frontCount = 0 then .BACK
  else if frontCount = 0 ∧ backCount = 0 then .COPLANAR
  else .SPANNING

/-- Whether the edge `(curr, next)` strictly crosses the plane: the two
signed distances have strictly opposite signs (the `if` guarding the
intersection computation in `splitPolygon`). -/
def crossesPlane (curr next : Point) (partition : Partition) : Prop :=
  (pointToPlaneDistance curr partition > 0 ∧
    pointToPlaneDistance next partition < 0) ∨
  (pointToPlaneDistance curr partition < 0 ∧
    pointToPlaneDistance next partition > 0)

/-- The interpolated intersection point of edge `(curr, next)` with the
plane, with parameter `t = currDist / (currDist - nextDist)` as in
`splitPolygon`. -/
def intersectionPoint (curr next : Point) (partition : Partition) : Point :=
  let currDist := pointToPlaneDistance curr partition
  let nextDist := pointToPlaneDistance next partition
  let t := currDist / (currDist - nextDist)
  { x := curr.x + t * (next.x - curr.x), y := curr.y + t * (next.y - curr.y) }

/-- The edge list walked by `splitPolygon`: the pairs
`(points[i], points[(i+1) % n])` in loop order. -/
def edgePairs (points : List Point) : List (Point × Point) :=
  points.zip (points.rotate 1)

/-- The accumulation loop of `splitPolygon` over the edge list: a vertex
with nonnegative distance is pushed onto the front list, one with
nonpositive distance onto the back list (one exactly on the plane onto
both), and a strict crossing pushes the interpolated intersection point
onto both lists. -/
def splitPointsAux (partition : Partition) :
    List (Point × Point) → List Point × List Point
  | [] => ([], [])
  | (curr, next) :: rest =>
    let tail := splitPointsAux partition rest
    let currDist := pointToPlaneDistance curr partition
    let cross :=
      if crossesPlane curr next partition
      then [intersectionPoint curr next partition] else []
    ((if currDist ≥ 0 then [curr] else []) ++ cross ++ tail.1,
     (if currDist ≤ 0 then [curr] else []) ++ cross ++ tail.2)

/-- The two vertex lists `frontPoints` and `backPoints` accumulated by
`splitPolygon`. -/
def splitPoints (polygon : Polygon) (partition : Partition) :
    List Point × List Point :=
  splitPointsAux partition (edgePairs polygon.points)

/-- `splitPolygon(polygon, partition)` of the source: each side becomes a
fragment (inheriting `id` and `color` via the object spread) when its
accumulated vertex list has at least 3 entries, and is `null` otherwise. -/
def splitPolygon (polygon : Polygon) (partition : Partition) :
    Option Polygon × Option Polygon :=
  let frontPoints := (splitPoints polygon partition).1
  let backPoints := (splitPoints polygon partition).2
  ((if frontPoints.length ≥ 3 then some { polygon with points := frontPoints }
    else none),
   (if backPoints.length ≥ 3 then some { polygon with points := backPoints }
    else none))

/-- `_insertHelper(node, polygon)` of the source, with `fuel` bounding the
recursion depth (the source recursion has no explicit guard; `none` here
means the budget was exhausted, and theorems below show a budget of
`2 * getHeight + 1` always suffices).  COPLANAR appends to the node's
polygon list; FRONT and BACK descend, creating a new leaf at an absent
child; SPANNING splits the polygon and re-runs insertion of each present
fragment at the same node, the back fragment into the tree produced by the
front fragment's insertion. -/
def insertHelper : ℕ → NodeRef → Polygon → Option NodeRef
  | 0, _, _ => none
  | _ + 1, .null, _ => none
  | fuel + 1, .node partition front back polys, polygon =>
    match classifyPolygon polygon partition with
    | .COPLANAR => some (.node partition front back (polys ++ [polygon]))
    | .FRONT =>
      match front with
      | .null =>
        some (.node partition
          (.node (createPartition polygon) .null .null [polygon]) back polys)
      | .node fp ff fb fpolys =>
        (insertHelper fuel (.node fp ff fb fpolys) polygon).map
          (fun f2 => .node partition f2 back polys)
    | .BACK =>
      match back with
      | .null =>
        some (.node partition front
          (.node (createPartition polygon) .null .null [polygon]) polys)
      | .node bp bf bb bpolys =>
        (insertHelper fuel (.node bp bf bb bpolys) polygon).map
          (fun b2 => .node partition front b2 polys)
    | .SPANNING =>
      match (splitPolygon polygon partition).1 with
      | none =>
        match (splitPolygon polygon partition).2 with
        | none => some (.node partition front back polys)
        | some bfrag =>
          insertHelper fuel (.node partition front back polys) bfrag
      | some ffrag =>
        match insertHelper fuel (.node partition front back polys) ffrag with
        | none => none
        | some t1 =>
          match (splitPolygon polygon partition).2 with
          | none => some t1
          | some bfrag => insertHelper fuel t1 bfrag

/-- `insert(polygon)` of the source, acting on the tree's `root` reference:
an empty tree gets a fresh root node holding the polygon; otherwise the
recursive helper runs with the given depth budget. -/
def insert (fuel : ℕ) (root : NodeRef) (polygon : Polygon) :
    Option NodeRef :=
  match root with
  | .null =>
    some (.node (createPartition polygon) .null .null [polygon])
  | .node p f b ps => insertHelper fuel (.node p f b ps) polygon

/-- `_traverseHelper(node, viewpoint, callback)` of the source, generic in
the callback's accumulated state: when the viewpoint's signed distance to
the node's partition is positive the back child is traversed first, then
the callback is invoked on the node, then the front child; otherwise front,
node, back. -/
def traverseHelper {σ : Type _} (visit : σ → NodeRef → σ) :
    NodeRef → Point → σ → σ
  | .null, _, s => s
  | .node partition front back polys, viewpoint, s =>
    if pointToPlaneDistance viewpoint partition > 0 then
      traverseHelper visit front viewpoint
        (visit (traverseHelper visit back viewpoint s)
          (.node partition front back polys))
    else
      traverseHelper visit back viewpoint
        (visit (traverseHelper visit front viewpoint s)
          (.node partition front back polys))

/-- `traverseFrontToBack(viewpoint, callback)` of the source, starting the
helper at the root. -/
def traverseFrontToBack {σ : Type _} (root : NodeRef) (viewpoint : Point)
    (visit : σ → NodeRef → σ) (s : σ) : σ :=
  traverseHelper visit root viewpoint s

/-- The sequence of nodes the traversal visits, as a plain list, used to
reason about `traverseFrontToBack` for an arbitrary callback. -/
def traverseList : NodeRef → Point → List NodeRef
  | .null, _ => []
  | .node partition front back polys, viewpoint =>
    if pointToPlaneDistance viewpoint partition > 0 then
      traverseList back viewpoint ++
        NodeRef.node partition front back polys :: traverseList front viewpoint
    else
      traverseList front viewpoint ++
        NodeRef.node partition front back polys :: traverseList back viewpoint

/-- `getHeight(node)` of the source. -/
def getHeight : NodeRef → ℕ
  | .null => 0
  | .node _ front back _ => 1 + max (getHeight front) (getHeight back)

/-- `countNodes(node)` of the source. -/
def countNodes : NodeRef → ℕ
  | .null => 0
  | .node _ front back _ => 1 + countNodes front + countNodes back

/-- The coplanar polygon collection of a node (empty for `null`). -/
def nodePolygons : NodeRef → List Polygon
  | .null => []
  | .node _ _ _ polys => polys

/-- Number of vertices (taken as the first components of the walked edge
pairs, i.e. each vertex once) lying exactly on the plane. -/
def onPlaneCount (partition : Partition) : List (Point × Point) → ℕ
  | [] => 0
  | (curr, _) :: rest =>
    (if pointToPlaneDistance curr partition = 0 then 1 else 0) +
      onPlaneCount partition rest

/-- Number of edges strictly crossing the plane. -/
def crossingCount (partition : Partition) : List (Point × Point) → ℕ
  | [] => 0
  | (curr, next) :: rest =>
    (if crossesPlane curr next partition then 1 else 0) +
      crossingCount partition rest

/-- Every node of the tree holds at least one polygon in its coplanar
collection. -/
def allNodesNonempty : NodeRef → Prop
  | .null => True
  | .node _ front back polys =>
    polys ≠ [] ∧ allNodesNonempty front ∧ allNodesNonempty back

/-- The frame relation of a single insertion: an absent reference stays
absent or receives a single fresh leaf; an existing node keeps its
partition, has polygons only appended to its collection, and has each child
related recursively (so no pre-existing link is detached or replaced). -/
def insertExtends : NodeRef → NodeRef → Prop
  | .null, t' =>
    t' = .null ∨ ∃ p poly, t' = .node p .null .null [poly]
  | .node _ _ _ _, .null => False
  | .node partition front back polys, .node partition' front' back' polys' =>
    partition' = partition ∧ (∃ added, polys' = polys ++ added) ∧
      insertExtends front front' ∧ insertExtends back back'

/-- Square A of the concrete scene of spec section 8: corners
(0,0)-(10,10), id 1, bottom edge leading. -/
def squareA : Polygon :=
  ⟨1, [⟨0, 0⟩, ⟨10, 0⟩, ⟨10, 10⟩, ⟨0, 10⟩], "#ef4444"⟩

/-- Square B of the concrete scene: corners (0,20)-(10,30), id 2. -/
def squareB : Polygon :=
  ⟨2, [⟨0, 20⟩, ⟨10, 20⟩, ⟨10, 30⟩, ⟨0, 30⟩], "#3b82f6"⟩

/-- Square C of the concrete scene: corners (0,-30)-(10,-20), id 3. -/
def squareC : Polygon :=
  ⟨3, [⟨0, -30⟩, ⟨10, -30⟩, ⟨10, -20⟩, ⟨0, -20⟩], "#10b981"⟩

/-- The partition derived from square A: plane y = 0 with unit normal
(0, 1). -/
def partA : Partition := ⟨⟨0, 0⟩, ⟨0, 1⟩⟩

/-- The partition derived from square B: plane y = 20 with unit normal
(0, 1). -/
def partB : Partition := ⟨⟨0, 20⟩, ⟨0, 1⟩⟩

/-- The partition derived from square C: plane y = -30 with unit normal
(0, 1). -/
def partC : Partition := ⟨⟨0, -30⟩, ⟨0, 1⟩⟩

/-- The tree after inserting square A into the empty tree. -/
def treeA : NodeRef := .node partA .null .null [squareA]

/-- The tree after inserting squares A then B. -/
def treeAB : NodeRef :=
  .node partA (.node partB .null .null [squareB]) .null [squareA]

/-- The tree after inserting squares A, B, C: B is the root's front child
and C its back child. -/
def treeABC : NodeRef :=
  .node partA (.node partB .null .null [squareB])
    (.node partC .null .null [squareC]) [squareA]

/-- A polygon whose vertices all lie within the epsilon band of square A's
plane without being exactly coplanar. -/
def bandPoly : Polygon :=
  ⟨4, [⟨0, 0⟩, ⟨1, 0⟩, ⟨2, 0.05⟩], "#f59e0b"⟩

/-- A triangle spanning square A's plane, used to exercise `splitPolygon`:
signed distances 5, 5, -5. -/
def spanTriangle : Polygon :=
  ⟨5, [⟨0, 5⟩, ⟨10, 5⟩, ⟨5, -5⟩], "#8b5cf6"⟩

/-- A polygon whose leading edge has zero length (its first two vertices
coincide). -/
def degeneratePoly : Polygon :=
  ⟨7, [⟨0, 0⟩, ⟨0, 0⟩, ⟨1, 1⟩], "#ef4444"⟩

/-- A polygon with only two vertices. -/
def twoPointPoly : Polygon :=
  ⟨9, [⟨0, 0⟩, ⟨1, 0⟩], "#3b82f6"⟩

theorem sqrt100 : Real.sqrt 100 = 10 := by
  rw [show (100:ℝ) = 10 ^ 2 by norm_num]
  exact Real.sqrt_sq (by norm_num)

theorem createPartition_squareA : createPartition squareA = partA := by
  simp only [createPartition, squareA, partA, pointAt, List.getD]
  norm_num [sqrt100]

theorem createPartition_squareB : createPartition squareB = partB := by
  simp only [createPartition, squareB, partB, pointAt, List.getD]
  norm_num [sqrt100]

theorem createPartition_squareC : createPartition squareC = partC := by
  simp only [createPartition, squareC, partC, pointAt, List.getD]
  norm_num [sqrt100]

theorem classify_B_A : classifyPolygon squareB partA = .FRONT := by
  norm_num [classifyPolygon, counts, pointToPlaneDistance, squareB, partA,
    EPSILON]

theorem classify_C_A : classifyPolygon squareC partA = .BACK := by
  norm_num [classifyPolygon, counts, pointToPlaneDistance, squareC, partA,
    EPSILON]

theorem insert_A : insert 5 .null squareA = some treeA := by
  simp only [insert, treeA, createPartition_squareA]

theorem insert_B : insert 5 treeA squareB = some treeAB := by
  simp only [insert, treeA, treeAB, insertHelper, classify_B_A,
    createPartition_squareB]

theorem insert_C : insert 5 treeAB squareC = some treeABC := by
  simp only [insert, treeAB, treeABC, insertHelper, classify_C_A,
    createPartition_squareC]

/-- C1: in the concrete three-square scene, square A becomes the root,
square B the root's front child, square C the root's back child, and the
front-to-back traversal from viewpoint (5, 50) emits the polygons in
identifier order [3, 1, 2]. -/
theorem c1_concrete_scene :
    insert 5 .null squareA = some treeA ∧
    insert 5 treeA squareB = some treeAB ∧
    insert 5 treeAB squareC = some treeABC ∧
    treeABC = NodeRef.node partA (.node partB .null .null [squareB])
      (.node partC .null .null [squareC]) [squareA] ∧
    ((traverseFrontToBack treeABC ⟨5, 50⟩ (fun s n => s ++ [n]) []).flatMap
        nodePolygons).map Polygon.id = [3, 1, 2] := by
  refine ⟨insert_A, insert_B, insert_C, rfl, ?_⟩
  norm_num [traverseFrontToBack, traverseHelper, pointToPlaneDistance,
    treeABC, partA, partB, partC, nodePolygons, squareA, squareB, squareC]

theorem traverseHelper_eq_foldl {σ : Type _} (visit : σ → NodeRef → σ)
    (t : NodeRef) (v : Point) (s : σ) :
    traverseHelper visit t v s = (traverseList t v).foldl visit s := by
  induction t generalizing s with
  | null => simp [traverseHelper, traverseList]
  | node part f b ps ihf ihb =>
    simp only [traverseHelper, traverseList]
    by_cases h : pointToPlaneDistance v part > 0 <;>
      simp [h, ihf, ihb, List.foldl_append]

theorem foldl_count_eq_length (l : List NodeRef) (s : ℕ) :
    l.foldl (fun n _ => n + 1) s = s + l.length := by
  induction l generalizing s with
  | nil => simp
  | cons a l ih => simp [ih]; omega

theorem foldl_push_eq_append (l s : List NodeRef) :
    l.foldl (fun s n => s ++ [n]) s = s ++ l := by
  induction l generalizing s with
  | nil => simp
  | cons a l ih => simp [ih]

theorem traverseList_length (t : NodeRef) (v : Point) :
    (traverseList t v).length = countNodes t := by
  induction t with
  | null => simp [traverseList, countNodes]
  | node part f b ps ihf ihb =>
    simp only [traverseList, countNodes]
    by_cases h : pointToPlaneDistance v part > 0 <;> simp [h, ihf, ihb] <;>
      omega

/-- C6: for every tree and viewpoint, the traversal invokes the visit
callback once per node (the invocation count equals `countNodes`), and at
each node the order is back child, node, front child when the viewpoint's
signed distance to the node's partition is positive, and front child, node,
back child otherwise. -/
theorem c6_traversal_count_and_order (t : NodeRef) (v : Point) :
    traverseFrontToBack t v (fun n _ => n + 1) 0 = countNodes t ∧
    ∀ (σ : Type) (visit : σ → NodeRef → σ) (s : σ) (partition : Partition)
      (front back : NodeRef) (polys : List Polygon),
      traverseFrontToBack (.node partition front back polys) v visit s =
        if pointToPlaneDistance v partition > 0 then
          traverseFrontToBack front v visit
            (visit (traverseFrontToBack back v visit s)
              (.node partition front back polys))
        else
          traverseFrontToBack back v visit
            (visit (traverseFrontToBack front v visit s)
              (.node partition front back polys)) := by
  constructor
  · rw [traverseFrontToBack, traverseHelper_eq_foldl, foldl_count_eq_length,
      traverseList_length, Nat.zero_add]
  · intro σ visit s partition front back polys
    simp only [traverseFrontToBack, traverseHelper]

/-- C8: the traversal is deterministic and read-only: for any callback it
folds the callback over a sequence determined only by the tree and the
viewpoint, so running it twice in succession with the same viewpoint on the
same tree emits that same sequence twice. -/
theorem c8_traversal_idempotent (t : NodeRef) (v : Point) :
    (∀ (σ : Type) (visit : σ → NodeRef → σ) (s : σ),
      traverseFrontToBack t v visit s = (traverseList t v).foldl visit s) ∧
    traverseFrontToBack t v (fun s n => s ++ [n])
        (traverseFrontToBack t v (fun s n => s ++ [n]) ([] : List NodeRef)) =
      traverseList t v ++ traverseList t v := by
  refine ⟨fun σ visit s => traverseHelper_eq_foldl visit t v s, ?_⟩
  rw [traverseFrontToBack, traverseFrontToBack, traverseHelper_eq_foldl,
    traverseHelper_eq_foldl, foldl_push_eq_append, foldl_push_eq_append,
    List.nil_append]

theorem eps_pos : (0:ℝ) < EPSILON := by norm_num [EPSILON]

theorem counts_fst_eq_countP (pts : List Point) (part : Partition) :
    (counts pts part).1 =
      pts.countP (fun p => decide (pointToPlaneDistance p part > EPSILON)) := by
  induction pts with
  | nil => simp [counts]
  | cons p rest ih =>
    simp only [counts, List.countP_cons]
    by_cases h1 : pointToPlaneDistance p part > EPSILON
    · simp [h1, ih]
    · by_cases h2 : pointToPlaneDistance p part < -EPSILON <;>
        simp [h1, h2, ih]

theorem counts_snd_eq_countP (pts : List Point) (part : Partition) :
    (counts pts part).2 =
      pts.countP (fun p => decide (pointToPlaneDistance p part < -EPSILON)) := by
  induction pts with
  | nil => simp [counts]
  | cons p rest ih =>
    simp only [counts, List.countP_cons]
    by_cases h1 : pointToPlaneDistance p part > EPSILON
    · have h2 : ¬ pointToPlaneDistance p part < -EPSILON := by
        have := eps_pos
        push_neg
        linarith
      simp [h1, h2, ih]
    · by_cases h2 : pointToPlaneDistance p part < -EPSILON <;>
        simp [h1, h2, ih]

theorem classify_eq_front_iff (poly : Polygon) (part : Partition) :
    classifyPolygon poly part = .FRONT ↔
      0 < (counts poly.points part).1 ∧ (counts poly.points part).2 = 0 := by
  unfold classifyPolygon
  dsimp only
  split_ifs with h1 h2 h3 <;> simp <;> omega

theorem classify_eq_back_iff (poly : Polygon) (part : Partition) :
    classifyPolygon poly part = .BACK ↔
      0 < (counts poly.points part).2 ∧ (counts poly.points part).1 = 0 := by
  unfold classifyPolygon
  dsimp only
  split_ifs with h1 h2 h3 <;> simp <;> omega

theorem classify_eq_coplanar_iff (poly : Polygon) (part : Partition) :
    classifyPolygon poly part = .COPLANAR ↔
      (counts poly.points part).1 = 0 ∧ (counts poly.points part).2 = 0 := by
  unfold classifyPolygon
  dsimp only
  split_ifs with h1 h2 h3 <;> simp <;> omega

theorem classify_eq_spanning_iff (poly : Polygon) (part : Partition) :
    classifyPolygon poly part = .SPANNING ↔
      0 < (counts poly.points part).1 ∧ 0 < (counts poly.points part).2 := by
  unfold classifyPolygon
  dsimp only
  split_ifs with h1 h2 h3 <;> simp <;> omega

/-- C2: the classification counters count exactly the vertices with signed
distance strictly above the epsilon tolerance (front) and strictly below
its negation (back), the result follows the four-way table on those
counters, and a polygon whose vertices all lie within the epsilon band is
classified COPLANAR. -/
theorem c2_classify_table (poly : Polygon) (part : Partition) :
    (counts poly.points part).1 =
      poly.points.countP
        (fun p => decide (pointToPlaneDistance p part > EPSILON)) ∧
    (counts poly.points part).2 =
      poly.points.countP
        (fun p => decide (pointToPlaneDistance p part < -EPSILON)) ∧
    (classifyPolygon poly part = .FRONT ↔
      0 < (counts poly.points part).1 ∧ (counts poly.points part).2 = 0) ∧
    (classifyPolygon poly part = .BACK ↔
      0 < (counts poly.points part).2 ∧ (counts poly.points part).1 = 0) ∧
    (classifyPolygon poly part = .COPLANAR ↔
      (counts poly.points part).1 = 0 ∧ (counts poly.points part).2 = 0) ∧
    (classifyPolygon poly part = .SPANNING ↔
      0 < (counts poly.points part).1 ∧ 0 < (counts poly.points part).2) ∧
    ((∀ p ∈ poly.points, |pointToPlaneDistance p part| ≤ EPSILON) →
      classifyPolygon poly part = .COPLANAR) := by
  refine ⟨counts_fst_eq_countP _ _, counts_snd_eq_countP _ _,
    classify_eq_front_iff _ _, classify_eq_back_iff _ _,
    classify_eq_coplanar_iff _ _, classify_eq_spanning_iff _ _, ?_⟩
  intro hband
  rw [classify_eq_coplanar_iff]
  constructor
  · rw [counts_fst_eq_countP, List.countP_eq_zero]
    intro p hp
    have := abs_le.mp (hband p hp)
    simp only [decide_eq_true_eq, not_lt]
    linarith [this.2]
  · rw [counts_snd_eq_countP, List.countP_eq_zero]
    intro p hp
    have := abs_le.mp (hband p hp)
    simp only [decide_eq_true_eq, not_lt]
    linarith [this.1]

/-- Witness for C2: the polygon with vertices (0,0), (1,0), (2,0.05) lies
entirely within the epsilon band of the plane y = 0 and is classified
COPLANAR. -/
theorem c2_classify_table_witness :
    classifyPolygon bandPoly partA = .COPLANAR := by
  refine (c2_classify_table bandPoly partA).2.2.2.2.2.2 ?_
  intro p hp
  simp only [bandPoly, List.mem_cons, List.not_mem_nil, or_false] at hp
  rcases hp with h | h | h <;> rw [h] <;>
    norm_num [pointToPlaneDistance, partA, EPSILON, abs_le]

theorem classify_T_A : classifyPolygon spanTriangle partA = .SPANNING := by
  norm_num [classifyPolygon, counts, pointToPlaneDistance, spanTriangle,
    partA, EPSILON]

theorem split_T_A :
    splitPolygon spanTriangle partA =
      (some ⟨5, [⟨0, 5⟩, ⟨10, 5⟩, ⟨15/2, 0⟩, ⟨5/2, 0⟩], "#8b5cf6"⟩,
       some ⟨5, [⟨15/2, 0⟩, ⟨5, -5⟩, ⟨5/2, 0⟩], "#8b5cf6"⟩) := by
  norm_num [splitPolygon, splitPoints, splitPointsAux, edgePairs,
    List.rotate, crossesPlane, intersectionPoint, pointToPlaneDistance,
    spanTriangle, partA]

theorem crossing_T_A :
    crossingCount partA (edgePairs spanTriangle.points) = 2 := by
  norm_num [crossingCount, edgePairs, List.rotate, crossesPlane,
    pointToPlaneDistance, spanTriangle, partA]

theorem splitPointsAux_length (part : Partition)
    (pairs : List (Point × Point)) :
    (splitPointsAux part pairs).1.length +
        (splitPointsAux part pairs).2.length =
      pairs.length + onPlaneCount part pairs +
        2 * crossingCount part pairs := by
  induction pairs with
  | nil => simp [splitPointsAux, onPlaneCount, crossingCount]
  | cons pr rest ih =>
    obtain ⟨curr, next⟩ := pr
    simp only [splitPointsAux, onPlaneCount, crossingCount, List.length_cons]
    by_cases hc : crossesPlane curr next part <;>
      rcases lt_trichotomy (pointToPlaneDistance curr part) 0 with h | h | h
    · simp [hc, not_le.mpr h, h.le, h.ne, List.length_append] <;> omega
    · simp [hc, h, List.length_append] <;> omega
    · simp [hc, not_le.mpr h, h.le, h.ne', List.length_append] <;> omega
    · simp [hc, not_le.mpr h, h.le, h.ne, List.length_append] <;> omega
    · simp [hc, h, List.length_append] <;> omega
    · simp [hc, not_le.mpr h, h.le, h.ne', List.length_append] <;> omega

theorem edgePairs_length (pts : List Point) :
    (edgePairs pts).length = pts.length := by
  simp [edgePairs, List.length_zip, List.length_rotate]

/-- C3 counterexample: the triangle with vertices (0,5), (10,5), (5,-5) is
SPANNING for the plane y = 0 with 2 plane-crossing edges; its two fragments
have 4 and 3 vertices, a combined count of 7, while the original count plus
the crossing count is only 5 (each crossing point is appended to both
fragments, so crossings contribute twice). -/
theorem c3_split_count_cex :
    classifyPolygon spanTriangle partA = .SPANNING ∧
    crossingCount partA (edgePairs spanTriangle.points) = 2 ∧
    (∃ f b, splitPolygon spanTriangle partA = (some f, some b) ∧
      f.points.length + b.points.length = 7) ∧
    spanTriangle.points.length +
        crossingCount partA (edgePairs spanTriangle.points) = 5 ∧
    (7 : ℕ) ≠ 5 := by
  refine ⟨classify_T_A, crossing_T_A, ⟨_, _, split_T_A, by norm_num⟩, ?_,
    by norm_num⟩
  rw [crossing_T_A]
  norm_num [spanTriangle]

/-- C3 amended: for every polygon classified SPANNING, the front and back
vertex lists accumulated by `splitPolygon` have combined length equal to the
original vertex count plus the number of vertices lying exactly on the
plane plus twice the number of plane-crossing edges; each returned fragment
carries exactly its side's accumulated list and has at least 3 vertices,
and a side is absent (null) exactly when its list has fewer than 3
vertices. -/
theorem c3_split_counts (poly : Polygon) (part : Partition)
    (hspan : classifyPolygon poly part = .SPANNING) :
    (splitPoints poly part).1.length + (splitPoints poly part).2.length =
      poly.points.length + onPlaneCount part (edgePairs poly.points) +
        2 * crossingCount part (edgePairs poly.points) ∧
    (∀ f, (splitPolygon poly part).1 = some f →
      f.points = (splitPoints poly part).1 ∧ 3 ≤ f.points.length) ∧
    (∀ b, (splitPolygon poly part).2 = some b →
      b.points = (splitPoints poly part).2 ∧ 3 ≤ b.points.length) ∧
    ((splitPolygon poly part).1 = none →
      (splitPoints poly part).1.length < 3) ∧
    ((splitPolygon poly part).2 = none →
      (splitPoints poly part).2.length < 3) := by
  refine ⟨?_, ?_, ?_, ?_, ?_⟩
  · rw [splitPoints, splitPointsAux_length, edgePairs_length]
  · intro f hf
    rw [splitPolygon] at hf
    by_cases h3 : (splitPoints poly part).1.length ≥ 3 <;> simp [h3] at hf
    rcases hf with ⟨rfl⟩ | _
    · exact ⟨rfl, h3⟩
  · intro b hb
    rw [splitPolygon] at hb
    by_cases h3 : (splitPoints poly part).2.length ≥ 3 <;> simp [h3] at hb
    rcases hb with ⟨rfl⟩ | _
    · exact ⟨rfl, h3⟩
  · intro hf
    rw [splitPolygon] at hf
    by_cases h3 : (splitPoints poly part).1.length ≥ 3 <;> simp [h3] at hf
    omega
  · intro hb
    rw [splitPolygon] at hb
    by_cases h3 : (splitPoints poly part).2.length ≥ 3 <;> simp [h3] at hb
    omega

/-- Witness for C3 amended: instantiated at the spanning triangle and the
plane y = 0, the combined accumulated vertex count obeys the corrected
formula 3 + 0 + 2 * 2. -/
theorem c3_split_counts_witness :
    (splitPoints spanTriangle partA).1.length +
        (splitPoints spanTriangle partA).2.length =
      spanTriangle.points.length +
        onPlaneCount partA (edgePairs spanTriangle.points) +
        2 * crossingCount partA (edgePairs spanTriangle.points) :=
  (c3_split_counts spanTriangle partA classify_T_A).1

theorem dist_intersection_eq_zero (curr next : Point) (part : Partition)
    (hc : crossesPlane curr next part) :
    pointToPlaneDistance (intersectionPoint curr next part) part = 0 := by
  have hne : pointToPlaneDistance curr part -
      pointToPlaneDistance next part ≠ 0 := by
    rcases hc with ⟨h1, h2⟩ | ⟨h1, h2⟩
    · exact ne_of_gt (by linarith)
    · exact ne_of_lt (by linarith)
  unfold pointToPlaneDistance at hne ⊢
  unfold intersectionPoint
  simp only [pointToPlaneDistance]
  field_simp
  ring

theorem mem_splitPointsAux_fst (part : Partition)
    (pairs : List (Point × Point)) (p : Point)
    (hp : p ∈ (splitPointsAux part pairs).1) :
    0 ≤ pointToPlaneDistance p part := by
  induction pairs with
  | nil => simp [splitPointsAux] at hp
  | cons pr rest ih =>
    obtain ⟨curr, next⟩ := pr
    simp only [splitPointsAux, List.mem_append] at hp
    rcases hp with (hp | hp) | hp
    · split_ifs at hp with h
      · simp only [List.mem_singleton] at hp
        rw [hp]
        exact h
      · simp at hp
    · split_ifs at hp with h
      · simp only [List.mem_singleton] at hp
        rw [hp, dist_intersection_eq_zero curr next part h]
      · simp at hp
    · exact ih hp

theorem mem_splitPointsAux_snd (part : Partition)
    (pairs : List (Point × Point)) (p : Point)
    (hp : p ∈ (splitPointsAux part pairs).2) :
    pointToPlaneDistance p part ≤ 0 := by
  induction pairs with
  | nil => simp [splitPointsAux] at hp
  | cons pr rest ih =>
    obtain ⟨curr, next⟩ := pr
    simp only [splitPointsAux, List.mem_append] at hp
    rcases hp with (hp | hp) | hp
    · split_ifs at hp with h
      · simp only [List.mem_singleton] at hp
        rw [hp]
        exact h
      · simp at hp
    · split_ifs at hp with h
      · simp only [List.mem_singleton] at hp
        rw [hp, dist_intersection_eq_zero curr next part h]
      · simp at hp
    · exact ih hp

theorem splitPolygon_fst_points (poly : Polygon) (part : Partition)
    (f : Polygon) (hf : (splitPolygon poly part).1 = some f) :
    f.points = (splitPoints poly part).1 := by
  rw [splitPolygon] at hf
  by_cases h3 : (splitPoints poly part).1.length ≥ 3 <;> simp [h3] at hf
  rw [← hf]

theorem splitPolygon_snd_points (poly : Polygon) (part : Partition)
    (b : Polygon) (hb : (splitPolygon poly part).2 = some b) :
    b.points = (splitPoints poly part).2 := by
  rw [splitPolygon] at hb
  by_cases h3 : (splitPoints poly part).2.length ≥ 3 <;> simp [h3] at hb
  rw [← hb]

theorem frag_front_backCount (poly : Polygon) (part : Partition)
    (f : Polygon) (hf : (splitPolygon poly part).1 = some f) :
    (counts f.points part).2 = 0 := by
  rw [counts_snd_eq_countP, List.countP_eq_zero]
  intro p hp
  rw [splitPolygon_fst_points poly part f hf] at hp
  have h0 := mem_splitPointsAux_fst part (edgePairs poly.points) p hp
  have := eps_pos
  simp only [decide_eq_true_eq, not_lt]
  linarith

theorem frag_back_frontCount (poly : Polygon) (part : Partition)
    (b : Polygon) (hb : (splitPolygon poly part).2 = some b) :
    (counts b.points part).1 = 0 := by
  rw [counts_fst_eq_countP, List.countP_eq_zero]
  intro p hp
  rw [splitPolygon_snd_points poly part b hb] at hp
  have h0 := mem_splitPointsAux_snd part (edgePairs poly.points) p hp
  have := eps_pos
  simp only [decide_eq_true_eq, not_lt]
  linarith

theorem classify_of_backCount_zero (poly : Polygon) (part : Partition)
    (h : (counts poly.points part).2 = 0) :
    classifyPolygon poly part = .FRONT ∨
      classifyPolygon poly part = .COPLANAR := by
  unfold classifyPolygon
  dsimp only
  split_ifs with h1 h2 h3 <;> simp_all <;> omega

theorem classify_of_frontCount_zero (poly : Polygon) (part : Partition)
    (h : (counts poly.points part).1 = 0) :
    classifyPolygon poly part = .BACK ∨
      classifyPolygon poly part = .COPLANAR := by
  unfold classifyPolygon
  dsimp only
  split_ifs with h1 h2 h3 <;> simp_all <;> omega

theorem insertHelper_shape_front (fuel : ℕ) (part : Partition)
    (f b : NodeRef) (ps : List Polygon) (poly : Polygon) (t' : NodeRef)
    (hbc : (counts poly.points part).2 = 0)
    (h : insertHelper fuel (.node part f b ps) poly = some t') :
    ∃ f' ps', t' = .node part f' b ps' := by
  cases fuel with
  | zero => simp [insertHelper] at h
  | succ n =>
    rcases classify_of_backCount_zero poly part hbc with hcl | hcl <;>
      simp only [insertHelper, hcl] at h
    · cases f with
      | null => exact ⟨_, _, (Option.some_injective _ h).symm⟩
      | node fp ff fb fps =>
        rcases Option.map_eq_some'.mp h with ⟨f2, _, hmap⟩
        exact ⟨f2, ps, hmap.symm⟩
    · exact ⟨f, ps ++ [poly], (Option.some_injective _ h).symm⟩

theorem insertHelper_shape_back (fuel : ℕ) (part : Partition)
    (f b : NodeRef) (ps : List Polygon) (poly : Polygon) (t' : NodeRef)
    (hfc : (counts poly.points part).1 = 0)
    (h : insertHelper fuel (.node part f b ps) poly = some t') :
    ∃ b' ps', t' = .node part f b' ps' := by
  cases fuel with
  | zero => simp [insertHelper] at h
  | succ n =>
    rcases classify_of_frontCount_zero poly part hfc with hcl | hcl <;>
      simp only [insertHelper, hcl] at h
    · cases b with
      | null => exact ⟨_, _, (Option.some_injective _ h).symm⟩
      | node bp bf bb bps =>
        rcases Option.map_eq_some'.mp h with ⟨b2, _, hmap⟩
        exact ⟨b2, ps, hmap.symm⟩
    · exact ⟨b, ps ++ [poly], (Option.some_injective _ h).symm⟩

theorem insertHelper_nonempty : ∀ (fuel : ℕ) (t : NodeRef) (poly : Polygon)
    (t' : NodeRef), allNodesNonempty t → insertHelper fuel t poly = some t' →
    allNodesNonempty t' := by
  intro fuel
  induction fuel with
  | zero =>
    intro t poly t' _ h
    simp [insertHelper] at h
  | succ n ih =>
    intro t poly t' hinv h
    cases t with
    | null => simp [insertHelper] at h
    | node part f b ps =>
      have hps : ps ≠ [] := hinv.1
      have hf := hinv.2.1
      have hb := hinv.2.2
      cases hcl : classifyPolygon poly part with
      | COPLANAR =>
        simp only [insertHelper, hcl] at h
        obtain rfl := Option.some_injective _ h
        exact ⟨by simp, hf, hb⟩
      | FRONT =>
        simp only [insertHelper, hcl] at h
        cases f with
        | null =>
          obtain rfl := Option.some_injective _ h
          exact ⟨hps, ⟨by simp, trivial, trivial⟩, hb⟩
        | node fp ff fb fps =>
          rcases Option.map_eq_some'.mp h with ⟨f2, hrec, rfl⟩
          exact ⟨hps, ih _ poly f2 hf hrec, hb⟩
      | BACK =>
        simp only [insertHelper, hcl] at h
        cases b with
        | null =>
          obtain rfl := Option.some_injective _ h
          exact ⟨hps, hf, ⟨by simp, trivial, trivial⟩⟩
        | node bp bf bb bps =>
          rcases Option.map_eq_some'.mp h with ⟨b2, hrec, rfl⟩
          exact ⟨hps, hf, ih _ poly b2 hb hrec⟩
      | SPANNING =>
        simp only [insertHelper, hcl] at h
        rcases hsp1 : (splitPolygon poly part).1 with _ | ffrag <;>
          simp only [hsp1] at h
        · rcases hsp2 : (splitPolygon poly part).2 with _ | bfrag <;>
            simp only [hsp2] at h
          · obtain rfl := Option.some_injective _ h
            exact hinv
          · exact ih _ _ _ hinv h
        · rcases h1 : insertHelper n (.node part f b ps) ffrag with _ | t1 <;>
            simp only [h1] at h
          · simp at h
          · have hinv1 := ih _ _ _ hinv h1
            rcases hsp2 : (splitPolygon poly part).2 with _ | bfrag <;>
              simp only [hsp2] at h
            · obtain rfl := Option.some_injective _ h
              exact hinv1
            · exact ih _ _ _ hinv1 h

/-- C9: every tree built solely by insertions has at least one polygon in
every node's coplanar collection: the invariant holds of the fresh root and
is preserved by every successful insert (new nodes carry exactly one
polygon and existing collections only grow). -/
theorem c9_nodes_nonempty (fuel : ℕ) (t : NodeRef) (poly : Polygon)
    (t' : NodeRef) (hinv : allNodesNonempty t)
    (h : insert fuel t poly = some t') : allNodesNonempty t' := by
  cases t with
  | null =>
    simp only [insert] at h
    obtain rfl := Option.some_injective _ h
    exact ⟨by simp, trivial, trivial⟩
  | node p f b ps => exact insertHelper_nonempty fuel _ poly t' hinv h

/-- Witness for C9: the invariant holds of the tree produced by inserting
square A into the empty tree. -/
theorem c9_nodes_nonempty_witness : allNodesNonempty treeA :=
  c9_nodes_nonempty 5 .null squareA treeA trivial insert_A

theorem insertExtends_refl : ∀ t : NodeRef, insertExtends t t := by
  intro t
  induction t with
  | null => exact Or.inl rfl
  | node part f b ps ihf ihb => exact ⟨rfl, ⟨[], by simp⟩, ihf, ihb⟩

theorem insertHelper_extends : ∀ (fuel : ℕ) (t : NodeRef) (poly : Polygon)
    (t' : NodeRef), insertHelper fuel t poly = some t' →
    insertExtends t t' := by
  intro fuel
  induction fuel with
  | zero =>
    intro t poly t' h
    simp [insertHelper] at h
  | succ n ih =>
    intro t poly t' h
    cases t with
    | null => simp [insertHelper] at h
    | node part f b ps =>
      cases hcl : classifyPolygon poly part with
      | COPLANAR =>
        simp only [insertHelper, hcl] at h
        obtain rfl := Option.some_injective _ h
        exact ⟨rfl, ⟨[poly], rfl⟩, insertExtends_refl f, insertExtends_refl b⟩
      | FRONT =>
        simp only [insertHelper, hcl] at h
        cases f with
        | null =>
          obtain rfl := Option.some_injective _ h
          exact ⟨rfl, ⟨[], by simp⟩, Or.inr ⟨_, _, rfl⟩, insertExtends_refl b⟩
        | node fp ff fb fps =>
          rcases Option.map_eq_some'.mp h with ⟨f2, hrec, rfl⟩
          exact ⟨rfl, ⟨[], by simp⟩, ih _ poly f2 hrec, insertExtends_refl b⟩
      | BACK =>
        simp only [insertHelper, hcl] at h
        cases b with
        | null =>
          obtain rfl := Option.some_injective _ h
          exact ⟨rfl, ⟨[], by simp⟩, insertExtends_refl f, Or.inr ⟨_, _, rfl⟩⟩
        | node bp bf bb bps =>
          rcases Option.map_eq_some'.mp h with ⟨b2, hrec, rfl⟩
          exact ⟨rfl, ⟨[], by simp⟩, insertExtends_refl f, ih _ poly b2 hrec⟩
      | SPANNING =>
        simp only [insertHelper, hcl] at h
        rcases hsp1 : (splitPolygon poly part).1 with _ | ffrag <;>
          simp only [hsp1] at h
        · rcases hsp2 : (splitPolygon poly part).2 with _ | bfrag <;>
            simp only [hsp2] at h
          · obtain rfl := Option.some_injective _ h
            exact insertExtends_refl _
          · exact ih _ _ _ h
        · rcases h1 : insertHelper n (.node part f b ps) ffrag with _ | t1 <;>
            simp only [h1] at h
          · simp at h
          · have hext1 := ih _ _ _ h1
            obtain ⟨f1, ps1, rfl⟩ := insertHelper_shape_front n part f b ps
              ffrag t1 (frag_front_backCount poly part ffrag hsp1) h1
            rcases hsp2 : (splitPolygon poly part).2 with _ | bfrag <;>
              simp only [hsp2] at h
            · obtain rfl := Option.some_injective _ h
              exact hext1
            · have hext2 := ih _ _ _ h
              obtain ⟨b2, ps2, rfl⟩ := insertHelper_shape_back n part f1 b
                ps1 bfrag t' (frag_back_frontCount poly part bfrag hsp2) h
              obtain ⟨-, ⟨a1, hps1⟩, hxf, -⟩ := hext1
              obtain ⟨-, ⟨a2, hps2⟩, -, hxb⟩ := hext2
              exact ⟨rfl, ⟨a1 ++ a2, by rw [hps2, hps1, List.append_assoc]⟩,
                hxf, hxb⟩

/-- C10: a successful insertion only extends the tree: every pre-existing
node keeps its partition, its polygon collection is only appended to, no
pre-existing child link is detached or replaced, and previously absent
child slots either stay absent or receive a single fresh leaf (the empty
root likewise receives a single fresh leaf). -/
theorem c10_insert_frame (fuel : ℕ) (t : NodeRef) (poly : Polygon)
    (t' : NodeRef) (h : insert fuel t poly = some t') :
    insertExtends t t' := by
  cases t with
  | null =>
    simp only [insert] at h
    obtain rfl := Option.some_injective _ h
    exact Or.inr ⟨_, _, rfl⟩
  | node p f b ps => exact insertHelper_extends fuel _ poly t' h

/-- Witness for C10: inserting square A into the empty tree yields a tree
extending it. -/
theorem c10_insert_frame_witness : insertExtends .null treeA :=
  c10_insert_frame 5 .null squareA treeA insert_A

theorem insert_total_aux : ∀ fuel : ℕ,
    (∀ (part : Partition) (f b : NodeRef) (ps : List Polygon)
      (poly : Polygon), 2 * getHeight (.node part f b ps) + 1 ≤ fuel →
      ∃ t', insertHelper fuel (.node part f b ps) poly = some t') ∧
    (∀ (part : Partition) (f b : NodeRef) (ps : List Polygon)
      (poly : Polygon), (counts poly.points part).2 = 0 →
      2 * getHeight f + 2 ≤ fuel →
      ∃ t', insertHelper fuel (.node part f b ps) poly = some t') ∧
    (∀ (part : Partition) (f b : NodeRef) (ps : List Polygon)
      (poly : Polygon), (counts poly.points part).1 = 0 →
      2 * getHeight b + 2 ≤ fuel →
      ∃ t', insertHelper fuel (.node part f b ps) poly = some t') := by
  intro fuel
  induction fuel with
  | zero =>
    exact ⟨fun part f b ps poly h => absurd h (by omega),
      fun part f b ps poly h0 h => absurd h (by omega),
      fun part f b ps poly h0 h => absurd h (by omega)⟩
  | succ n ih =>
    obtain ⟨ihM, ihF, ihB⟩ := ih
    refine ⟨?_, ?_, ?_⟩
    · intro part f b ps poly hfuel
      cases hcl : classifyPolygon poly part with
      | COPLANAR => exact ⟨_, by simp only [insertHelper, hcl]; rfl⟩
      | FRONT =>
        cases f with
        | null => exact ⟨_, by simp only [insertHelper, hcl]; rfl⟩
        | node fp ff fb fps =>
          have hh : 2 * getHeight (.node fp ff fb fps) + 1 ≤ n := by
            simp only [getHeight] at hfuel ⊢
            omega
          obtain ⟨t2, h2⟩ := ihM fp ff fb fps poly hh
          exact ⟨_, by simp only [insertHelper, hcl, h2, Option.map_some']; rfl⟩
      | BACK =>
        cases b with
        | null => exact ⟨_, by simp only [insertHelper, hcl]; rfl⟩
        | node bp bf bb bps =>
          have hh : 2 * getHeight (.node bp bf bb bps) + 1 ≤ n := by
            simp only [getHeight] at hfuel ⊢
            omega
          obtain ⟨t2, h2⟩ := ihM bp bf bb bps poly hh
          exact ⟨_, by simp only [insertHelper, hcl, h2, Option.map_some']; rfl⟩
      | SPANNING =>
        rcases hsp1 : (splitPolygon poly part).1 with _ | ffrag
        · rcases hsp2 : (splitPolygon poly part).2 with _ | bfrag
          · exact ⟨_, by simp only [insertHelper, hcl, hsp1, hsp2]; rfl⟩
          · have hb0 := frag_back_frontCount poly part bfrag hsp2
            have hhb : 2 * getHeight b + 2 ≤ n := by
              simp only [getHeight] at hfuel
              omega
            obtain ⟨t2, h2⟩ := ihB part f b ps bfrag hb0 hhb
            exact ⟨t2, by simp only [insertHelper, hcl, hsp1, hsp2, h2]⟩
        · have hf0 := frag_front_backCount poly part ffrag hsp1
          have hhf : 2 * getHeight f + 2 ≤ n := by
            simp only [getHeight] at hfuel
            omega
          obtain ⟨t1, h1⟩ := ihF part f b ps ffrag hf0 hhf
          obtain ⟨f1, ps1, rfl⟩ :=
            insertHelper_shape_front n part f b ps ffrag t1 hf0 h1
          rcases hsp2 : (splitPolygon poly part).2 with _ | bfrag
          · exact ⟨_, by simp only [insertHelper, hcl, hsp1, hsp2, h1]; rfl⟩
          · have hb0 := frag_back_frontCount poly part bfrag hsp2
            have hhb : 2 * getHeight b + 2 ≤ n := by
              simp only [getHeight] at hfuel
              omega
            obtain ⟨t2, h2⟩ := ihB part f1 b ps1 bfrag hb0 hhb
            exact ⟨t2, by simp only [insertHelper, hcl, hsp1, hsp2, h1, h2]⟩
    · intro part f b ps poly hbc hfuel
      rcases classify_of_backCount_zero poly part hbc with hcl | hcl
      · cases f with
        | null => exact ⟨_, by simp only [insertHelper, hcl]; rfl⟩
        | node fp ff fb fps =>
          have hh : 2 * getHeight (.node fp ff fb fps) + 1 ≤ n := by omega
          obtain ⟨t2, h2⟩ := ihM fp ff fb fps poly hh
          exact ⟨_, by simp only [insertHelper, hcl, h2, Option.map_some']; rfl⟩
      · exact ⟨_, by simp only [insertHelper, hcl]; rfl⟩
    · intro part f b ps poly hfc hfuel
      rcases classify_of_frontCount_zero poly part hfc with hcl | hcl
      · cases b with
        | null => exact ⟨_, by simp only [insertHelper, hcl]; rfl⟩
        | node bp bf bb bps =>
          have hh : 2 * getHeight (.node bp bf bb bps) + 1 ≤ n := by omega
          obtain ⟨t2, h2⟩ := ihM bp bf bb bps poly hh
          exact ⟨_, by simp only [insertHelper, hcl, h2, Option.map_some']; rfl⟩
      · exact ⟨_, by simp only [insertHelper, hcl]; rfl⟩

/-- C7: insertion terminates for every polygon with at least 3 vertices and
a leading edge of nonzero length: a recursion-depth budget of twice the
tree height plus one always suffices, because a split fragment re-run
against the same node is never SPANNING there again (its vertices all lie
weakly on one side of that node's plane), so the re-entrant SPANNING case
cannot loop. -/
theorem c7_insert_terminates (t : NodeRef) (poly : Polygon)
    (hverts : 3 ≤ poly.points.length)
    (hedge : pointAt poly.points 0 ≠ pointAt poly.points 1)
    (fuel : ℕ) (hfuel : 2 * getHeight t + 1 ≤ fuel) :
    ∃ t', insert fuel t poly = some t' := by
  cases t with
  | null => exact ⟨_, rfl⟩
  | node p f b ps => exact (insert_total_aux fuel).1 p f b ps poly hfuel

/-- Witness for C7: inserting square B into the one-node tree holding
square A succeeds within a depth budget of 3. -/
theorem c7_insert_terminates_witness :
    ∃ t', insert 3 treeA squareB = some t' :=
  c7_insert_terminates treeA squareB (by norm_num [squareB])
    (by norm_num [pointAt, squareB, List.getD, Point.mk.injEq]) 3
    (by norm_num [treeA, getHeight])

/-- C4: contrary to the claim, inserting a polygon whose leading edge has
zero length raises no DegenerateEdge error: the partition is constructed by
dividing by the zero edge length (yielding NaN components in JavaScript,
and 0 under the Lean convention for division by zero) and the polygon is
installed silently as a root node with that degenerate normal. -/
theorem c4_no_degenerate_edge_error :
    insert 1 .null degeneratePoly =
      some (.node ⟨⟨0, 0⟩, ⟨0, 0⟩⟩ .null .null [degeneratePoly]) := by
  simp only [insert]
  norm_num [createPartition, degeneratePoly, pointAt, List.getD]

/-- C5: contrary to the claim, a polygon with fewer than 3 vertices is not
rejected with an InvalidPolygon error: inserting a two-vertex polygon into
the empty tree mutates the tree, installing a root node that stores it. -/
theorem c5_no_invalid_polygon_error :
    twoPointPoly.points.length < 3 ∧
    insert 1 .null twoPointPoly =
      some (.node ⟨⟨0, 0⟩, ⟨0, 1⟩⟩ .null .null [twoPointPoly]) ∧
    countNodes (.node ⟨⟨0, 0⟩, ⟨0, 1⟩⟩ .null .null [twoPointPoly]) = 1 := by
  refine ⟨by norm_num [twoPointPoly], ?_, by simp [countNodes]⟩
  simp only [insert]
  norm_num [createPartition, twoPointPoly, pointAt, List.getD]

end

end BSPV






